import Mathlib

/-!
Verification of the Workflow & Agent Orchestration Core of
`universal-claude-workflow` against its specification.

The subsystem lives in two source files:
* `src/analytics.js` — `SubagentOrchestrator` (agent registry, team
  selection, collaboration planning, phase execution) together with the
  helper classes `IntelligentAgentSelector`, `CollaborationPlanner`,
  `TeamOptimizer`, `ConflictResolver`;
* the workflow-engine file — `WorkflowEngine` with `WorkflowPlanGenerator`,
  `PreFlightChecker`, `PostFlightChecker`, `StageExecutor`.

The embedding below translates those JavaScript classes into pure Lean
functions.  Mutation of a record (`phaseExecution.agentResults.set(...)`,
`workflow.currentStage = i`) becomes explicit state passing; a JavaScript
`throw` becomes an `Option String` error component (`none` = no exception,
`some msg` = the thrown error's message); the pluggable, opaque agent unit
of work (`agent.executeTask(task, context)`) becomes a function parameter
`run : Agent → AgentTask → Except String TaskResult`, and the pluggable
pre/post-flight checks become function parameters as well.  JavaScript
`Map` objects keyed by agent id become association lists with `Map.set`
insertion-order semantics (`mapSet` below).  Timestamps (`Date.now()`)
are irrelevant to every claim and are either passed in as a `now : Nat`
parameter or omitted.
-/

namespace UCW

/-- An agent as registered with the orchestrator (`BaseAgent` in the
source: `id`, `name`, `specialization`; capabilities and lifecycle state
are never consulted by the orchestration control flow). -/
structure Agent where
  id : String
  name : String
  specialization : String
  deriving DecidableEq, Repr

/-- A task submitted to the orchestrator.  Only the fields the embedded
control flow reads are kept: `primarySkill` (agent selection) and
`requiresQA` (team composition). -/
structure Task where
  name : String
  primarySkill : String
  requiresQA : Bool
  deriving DecidableEq, Repr

/-- The result object an agent's unit of work returns on success.  The
orchestrator treats it as opaque; a single payload field stands for it. -/
structure TaskResult where
  value : Nat
  deriving DecidableEq, Repr

/-- One entry of a `PhaseExecution.agentResults` map: either the agent's
result (`agentResults.set(agent.id, result)`) or an error record
(`agentResults.set(agent.id, { error: error.message })`). -/
inductive AgentResult where
  | ok (r : TaskResult)
  | err (msg : String)
  deriving DecidableEq, Repr

/-- A single agent assignment inside a phase
(`{ agentId, task, usesPreviousResult }` in the source; the `task`
payload is opaque to the executor and is not modelled). -/
structure AgentTask where
  agentId : String
  usesPreviousResult : Bool
  deriving DecidableEq, Repr

/-- Execution mode of a phase (`phase.executionMode === 'parallel'`
selects parallel execution, anything else falls through to sequential). -/
inductive ExecMode where
  | parallel
  | sequential
  deriving DecidableEq, Repr

/-- One phase of a collaboration plan.  In the source the planner's phase
object carries no `requiresValidation` property, so reading it yields
`undefined`, which is falsy; a missing flag is therefore embedded as
`false`. -/
structure Phase where
  name : String
  executionMode : ExecMode
  agentTasks : List AgentTask
  requiresValidation : Bool := false
  deriving DecidableEq, Repr

/-- The collaboration plan: an ordered list of phases. -/
structure CollaborationPlan where
  phases : List Phase
  deriving DecidableEq, Repr

/-- A `sequential_handoff` collaboration record appended by
`executePhaseSequential`; `fromId` is `phase.agentTasks[i-1]?.agentId`
(`none` when there is no previous task). -/
structure Collab where
  ctype : String
  fromId : Option String
  toId : String
  deriving DecidableEq, Repr

/-- Per-phase runtime record (`phaseExecution` in the source); the
`agentResults` JavaScript `Map` keyed by agent id is an association list
in insertion order. -/
structure PhaseExecution where
  name : String
  agentResults : List (String × AgentResult)
  conflicts : List String
  collaborations : List Collab
  deriving DecidableEq, Repr

/-- JavaScript `Map.set` on an association list: if the key is present the
value is replaced in place (insertion order kept), otherwise the pair is
appended at the end. -/
def mapSet (m : List (String × AgentResult)) (k : String) (v : AgentResult) :
    List (String × AgentResult) :=
  match m with
  | [] => [(k, v)]
  | p :: rest => if p.1 == k then (k, v) :: rest else p :: mapSet rest k v

/-- The keys of an `agentResults` map, in insertion order. -/
def resultKeys (m : List (String × AgentResult)) : List String :=
  m.map Prod.fst

/-- Whether a map entry is an error record (`{ error: ... }`). -/
def isErrEntry (p : String × AgentResult) : Bool :=
  match p.2 with
  | .ok _ => false
  | .err _ => true

/- ### Agent registry (`SubagentOrchestrator.registerAgent`) -/

/-- `registerAgent(agent)`: throws `Agent <id> already registered` when the
id is already in the `registeredAgents` map, otherwise adds the agent.
The registry (a `Map` keyed by `agent.id`) is embedded as the list of
registered agents in insertion order; the returned pair is the registry
after the call together with the thrown error, if any (the `throw`
happens before any mutation, so on a duplicate the registry is returned
unchanged).  The event-handler wiring and `agent.initialize()` have no
effect on the registry and are not modelled. -/
def registerAgent (registeredAgents : List Agent) (agent : Agent) :
    List Agent × Option String :=
  if registeredAgents.any (fun a => a.id == agent.id) then
    (registeredAgents, some ("Agent " ++ agent.id ++ " already registered"))
  else
    (registeredAgents ++ [agent], none)

/- ### Agent selection (`IntelligentAgentSelector`, `TeamOptimizer`) -/

/-- `IntelligentAgentSelector.selectPrimaryAgent(task, candidates)`:
`candidates.find(a => a.specialization === task.primarySkill) || candidates[0]`.
An agent object is always truthy, so the fallback fires exactly when
`find` returns `undefined`; on an empty candidate list the JavaScript
expression is `undefined`, embedded as `none`. -/
def selectPrimaryAgent (task : Task) (candidates : List Agent) : Option Agent :=
  match candidates.find? (fun a => a.specialization == task.primarySkill) with
  | some a => some a
  | none => candidates.head?

/-- `TeamOptimizer.optimize(team, task, context)`: the source body is
`async optimize(team) { return team; }` — it returns the team unchanged. -/
def teamOptimizerOptimize (team : List Agent) : List Agent :=
  team

/-- `SubagentOrchestrator.optimizeTeamComposition(team, task, context)`:
constructs a `TeamOptimizer` and returns `optimizer.optimize(team, task,
context)`. -/
def optimizeTeamComposition (team : List Agent) (_task : Task) : List Agent :=
  teamOptimizerOptimize team

/- ### Collaboration planning (`CollaborationPlanner.createPlan`) -/

/-- The options object handed to `CollaborationPlanner.createPlan` by
`createCollaborationPlan`.  Only `agents` is read by the planner body;
the task is kept for the record, and the remaining members
(`context`, `collaborationMatrix`, `projectConstraints`,
`timeConstraints`, `qualityRequirements`) are never read. -/
structure PlanOptions where
  agents : List Agent
  task : Task
  deriving DecidableEq, Repr

/-- `CollaborationPlanner.createPlan(options)`: returns a plan with the
single phase `Analysis`, executed in parallel, with one agent task per
team member (`options.agents.map(agent => ({ agentId: agent.id, task:
{ type: 'analyze', target: options.task } }))`).  The phase object has no
`requiresValidation` property (falsy, embedded `false`) and the agent
tasks have no `usesPreviousResult` property (falsy, embedded `false`). -/
def createPlan (options : PlanOptions) : CollaborationPlan :=
  { phases :=
      [ { name := "Analysis"
          executionMode := .parallel
          agentTasks := options.agents.map (fun a =>
            { agentId := a.id, usesPreviousResult := false })
          requiresValidation := false } ] }

/- ### Phase execution (`SubagentOrchestrator.executePhaseParallel`,
`executePhaseSequential`)

The opaque agent unit of work `agent.executeTask(agentTask, context)` is a
parameter `run : Agent → AgentTask → Except String TaskResult`
(`Except.error msg` models a rejected promise whose `error.message` is
`msg`).  Each executor returns the final `PhaseExecution` state together
with the error thrown out of the executor, if any (`none` = the call
resolved normally). -/

/-- `agentTeam.find(a => a.id === agentTask.agentId)`. -/
def findTeamAgent (team : List Agent) (t : AgentTask) : Option Agent :=
  team.find? (fun a => a.id == t.agentId)

/-- The `agentResults` entry the executors record for one agent task:
the agent's result on success, or `{ error: error.message }` on failure.
(The `"agent not found"` default is never reached under the claims'
hypothesis that every referenced agent is in the team.) -/
def agentOutcomeEntry (run : Agent → AgentTask → Except String TaskResult)
    (team : List Agent) (t : AgentTask) : AgentResult :=
  match findTeamAgent team t with
  | some a =>
    match run a t with
    | .ok r => .ok r
    | .error e => .err e
  | none => .err "agent not found"

/-- Whether the execution of one agent task fails (its agent is found in
the team and its unit of work raises). -/
def agentTaskFails (run : Agent → AgentTask → Except String TaskResult)
    (team : List Agent) (t : AgentTask) : Bool :=
  match findTeamAgent team t with
  | some a =>
    match run a t with
    | .ok _ => false
    | .error _ => true
  | none => false

/-- `SubagentOrchestrator.handleAgentFailures(failures, phaseExecution,
context)`: the source body is the placeholder
`async handleAgentFailures() {}` — it performs no observable state
change, so it is the identity on the phase execution. -/
def handleAgentFailures (_failures : List Bool) (pe : PhaseExecution) :
    PhaseExecution :=
  pe

/-- One agent task of a parallel phase (the body of the arrow function
mapped over `phase.agentTasks`): look the agent up in the team (a missing
agent throws `Agent <id> not found in team`), run its unit of work,
record either the result or an error entry under the agent's id, and
report the per-task success flag (`{ agentId, success, ... }`). -/
def parallelTaskStep (run : Agent → AgentTask → Except String TaskResult)
    (team : List Agent) (t : AgentTask) (pe : PhaseExecution) :
    Except String (PhaseExecution × Bool) :=
  match findTeamAgent team t with
  | none => .error ("Agent " ++ t.agentId ++ " not found in team")
  | some agent =>
    match run agent t with
    | .ok r =>
      .ok ({ pe with agentResults := mapSet pe.agentResults agent.id (.ok r) }, true)
    | .error e =>
      .ok ({ pe with agentResults := mapSet pe.agentResults agent.id (.err e) }, false)

/-- The `Promise.all` join of a parallel phase, as a fold over the agent
tasks.  The real promises interleave, which can permute the insertion
order of `agentResults` entries and, when a task's agent is missing from
the team, leave the other tasks' entries partially recorded; no claim
depends on insertion order or on the missing-agent interleaving, so the
fold processes the tasks in list order and stops at the first
missing-agent throw.  Returns the phase state, the thrown error (if any)
and the collected success flags. -/
def parallelJoin (run : Agent → AgentTask → Except String TaskResult)
    (team : List Agent) :
    List AgentTask → PhaseExecution → List Bool →
    PhaseExecution × Option String × List Bool
  | [], pe, flags => (pe, none, flags)
  | t :: ts, pe, flags =>
    match parallelTaskStep run team t pe with
    | .error e => (pe, some e, flags)
    | .ok (pe', okFlag) => parallelJoin run team ts pe' (flags ++ [okFlag])

/-- `SubagentOrchestrator.executePhaseParallel(phase, agentTeam,
phaseExecution, context)`: run all agent tasks, join, then — if any
failed — warn and invoke `handleAgentFailures` (a no-op). -/
def executePhaseParallel (run : Agent → AgentTask → Except String TaskResult)
    (phase : Phase) (team : List Agent) (pe : PhaseExecution) :
    PhaseExecution × Option String :=
  match parallelJoin run team phase.agentTasks pe [] with
  | (pe', some e, _) => (pe', some e)
  | (pe', none, flags) =>
    let failures := flags.filter (fun b => !b)
    (if failures.length > 0 then handleAgentFailures failures pe' else pe', none)

/-- The `for (const agentTask of phase.agentTasks)` loop of
`executePhaseSequential`.  `allTasks` is the full `phase.agentTasks`
array (consulted for `phase.agentTasks[indexOf(agentTask) - 1]` when a
`sequential_handoff` collaboration is recorded) and `i` the index of the
current task.  On success the agent's result is recorded and, when the
task has `usesPreviousResult` set, a handoff collaboration is appended
(`previousResult` has just been assigned the — always truthy — result
object, so the guard reduces to the flag).  On failure the error entry is
recorded and the loop throws
`Sequential execution failed at agent <name>: <message>`, leaving the
remaining tasks unexecuted. -/
def sequentialLoop (run : Agent → AgentTask → Except String TaskResult)
    (team : List Agent) (allTasks : List AgentTask) :
    List AgentTask → Nat → PhaseExecution → PhaseExecution × Option String
  | [], _, pe => (pe, none)
  | t :: ts, i, pe =>
    match findTeamAgent team t with
    | none => (pe, some ("Agent " ++ t.agentId ++ " not found in team"))
    | some agent =>
      match run agent t with
      | .error e =>
        ({ pe with agentResults := mapSet pe.agentResults agent.id (.err e) },
         some ("Sequential execution failed at agent " ++ agent.name ++ ": " ++ e))
      | .ok r =>
        let pe1 := { pe with agentResults := mapSet pe.agentResults agent.id (.ok r) }
        let pe2 :=
          if t.usesPreviousResult then
            { pe1 with collaborations := pe1.collaborations ++
                [{ ctype := "sequential_handoff"
                   fromId := ((allTasks.get? (i - 1)).map (fun p => p.agentId))
                   toId := agent.id }] }
          else pe1
        sequentialLoop run team allTasks ts (i + 1) pe2

/-- `SubagentOrchestrator.executePhaseSequential(phase, agentTeam,
phaseExecution, context)`. -/
def executePhaseSequential (run : Agent → AgentTask → Except String TaskResult)
    (phase : Phase) (team : List Agent) (pe : PhaseExecution) :
    PhaseExecution × Option String :=
  sequentialLoop run team phase.agentTasks phase.agentTasks 0 pe

/- ### Orchestration result (`SubagentOrchestrator.compileOrchestrationResult`) -/

/-- The execution record built by `executeOrchestration` (only the fields
`compileOrchestrationResult` reads are kept). -/
structure OrchestrationExecution where
  startTime : Nat
  phases : List PhaseExecution
  deriving DecidableEq, Repr

/-- The result object compiled at the end of a successful orchestration. -/
structure OrchestrationResult where
  success : Bool
  phases : Nat
  duration : Nat
  deriving DecidableEq, Repr

/-- `SubagentOrchestrator.compileOrchestrationResult(execution)`: the
body is `return { success: true, phases: execution.phases.length,
duration: Date.now() - execution.startTime }`; `Date.now()` is passed in
as `now`. -/
def compileOrchestrationResult (now : Nat) (execution : OrchestrationExecution) :
    OrchestrationResult :=
  { success := true
    phases := execution.phases.length
    duration := now - execution.startTime }

/- ### Workflow engine (`WorkflowEngine.executeWorkflow` and the
pre/post-flight checks)

The contextual check lists returned by
`PreFlightChecker.getChecksForStage` / `PostFlightChecker.getChecksForStage`
are function parameters `preChecks` / `postChecks` (the source classes are
pluggable and currently return `[]`).  A pre-flight check is called as
`check.execute(workflow)`, a post-flight check as
`check.execute(stage.result, workflow)`; both return
`{ passed, message }`. -/

/-- Workflow status: `'active' | 'completed' | 'failed'`. -/
inductive WStatus where
  | active
  | completed
  | failed
  deriving DecidableEq, Repr

/-- A workflow stage as produced by `WorkflowPlanGenerator` (`name` and
`type`; the estimated time is never read by the engine). -/
structure Stage where
  name : String
  stageType : String
  deriving DecidableEq, Repr

/-- The result of `StageExecutor.execute` (the simulated-delay metrics
are constants in the source). -/
structure StageResult where
  success : Bool
  deriving DecidableEq, Repr

/-- The outcome of one pre- or post-flight check. -/
structure CheckResult where
  passed : Bool
  message : String
  deriving Repr

/-- The insight record appended by `recordStageInsights` (stage name and
the `success` flag of the stage result; the timestamp is omitted). -/
structure Insight where
  stage : String
  success : Bool
  deriving DecidableEq, Repr

/-- The workflow record built by `startWorkflow` (only the fields
`executeWorkflow` reads or writes are kept). -/
structure Workflow where
  intent : String
  stages : List Stage
  currentStage : Nat
  status : WStatus
  insights : List Insight
  error : Option String

/-- `WorkflowEngine.executePreFlightCheck(stage, workflow)` unfolded over
the check list: the first check whose result is not `passed` throws
`Pre-flight check failed: <message>`; the thrown message is returned as
`some`, and `none` means every check passed. -/
def runPreChecks (checks : List (Workflow → CheckResult)) (w : Workflow) :
    Option String :=
  match checks with
  | [] => none
  | c :: cs =>
    if (c w).passed then runPreChecks cs w
    else some ("Pre-flight check failed: " ++ (c w).message)

/-- `WorkflowEngine.executePreFlightCheck(stage, workflow)`. -/
def executePreFlightCheck (preChecks : Stage → List (Workflow → CheckResult))
    (stage : Stage) (w : Workflow) : Option String :=
  runPreChecks (preChecks stage) w

/-- `WorkflowEngine.executePostFlightCheck(stage, workflow)`: a check
whose result is not `passed` only emits the console warning
`Post-flight warning: <message>`; the warnings are collected and nothing
is thrown. -/
def runPostChecks (checks : List (StageResult → Workflow → CheckResult))
    (r : StageResult) (w : Workflow) : List String :=
  match checks with
  | [] => []
  | c :: cs =>
    (if (c r w).passed then [] else ["Post-flight warning: " ++ (c r w).message])
      ++ runPostChecks cs r w

/-- `WorkflowEngine.executePostFlightCheck(stage, workflow)` applied to
`stage.result`. -/
def executePostFlightCheck (postChecks : Stage → List (StageResult → Workflow → CheckResult))
    (stage : Stage) (r : StageResult) (w : Workflow) : List String :=
  runPostChecks (postChecks stage) r w

/-- `StageExecutor.execute(stage, workflow)`: after the simulated delay it
returns `{ success: true, duration, metrics }` unconditionally. -/
def executeStage (_stage : Stage) (_w : Workflow) : StageResult :=
  { success := true }

/-- The `for (let i = 0; i < workflow.stages.length; i++)` loop of
`executeWorkflow`, together with the surrounding `try`/`catch`.  Per
stage: set `workflow.currentStage = i`, run the pre-flight checks (a
throw is caught by `executeWorkflow`, which sets the status to `failed`,
records the error and rethrows), execute the stage, run the post-flight
checks (warnings only), append the stage insight
(`recordStageInsights`), continue.  After the loop the status becomes
`completed`.  The returned trace lists every value `currentStage` takes,
starting with its value on entry. -/
def workflowLoop (preChecks : Stage → List (Workflow → CheckResult))
    (postChecks : Stage → List (StageResult → Workflow → CheckResult)) :
    List Stage → Nat → Workflow → List Nat → Workflow × List Nat
  | [], _, w, trace => ({ w with status := .completed }, trace)
  | s :: rest, i, w, trace =>
    let w1 := { w with currentStage := i }
    let trace1 := trace ++ [i]
    match executePreFlightCheck preChecks s w1 with
    | some msg => ({ w1 with status := .failed, error := some msg }, trace1)
    | none =>
      let r := executeStage s w1
      let _warnings := executePostFlightCheck postChecks s r w1
      let w2 := { w1 with insights := w1.insights ++ [{ stage := s.name, success := r.success }] }
      workflowLoop preChecks postChecks rest (i + 1) w2 trace1

/-- `WorkflowEngine.executeWorkflow(workflow)`: iterate the stage loop
from index `0` on the workflow's stages.  The first component is the
workflow record when `executeWorkflow` returns (or when the caught error
is rethrown), the second the trace of `currentStage` values. -/
def executeWorkflow (preChecks : Stage → List (Workflow → CheckResult))
    (postChecks : Stage → List (StageResult → Workflow → CheckResult))
    (w : Workflow) : Workflow × List Nat :=
  workflowLoop preChecks postChecks w.stages 0 w [w.currentStage]

/- ### Concrete agents and tasks used as witnesses -/

/-- A concrete architecture agent (shape of `ArchitectAgent`). -/
def architectAgent : Agent :=
  { id := "architecture_1", name := "Architect", specialization := "architecture" }

/-- A concrete coding agent (shape of `CoderAgent`). -/
def coderAgent : Agent :=
  { id := "coding_1", name := "Coder", specialization := "coding" }

/-- A concrete review agent (shape of `ReviewerAgent`). -/
def reviewerAgent : Agent :=
  { id := "review_1", name := "Reviewer", specialization := "review" }

/-- The scenario team Architect, Coder, Reviewer. -/
def qaTeam : List Agent :=
  [architectAgent, coderAgent, reviewerAgent]

/-- A concrete task that requires QA. -/
def qaTask : Task :=
  { name := "build-feature", primarySkill := "coding", requiresQA := true }

/-- Planner input for the QA scenario. -/
def qaPlanOptions : PlanOptions :=
  { agents := qaTeam, task := qaTask }

/-- A duplicated team: the same coder agent appears twice. -/
def dupTeam : List Agent :=
  [coderAgent, coderAgent]

/- ### General lemmas about the embedding -/

/-- `Map.set` with a key absent from the map appends the pair. -/
theorem mapSet_fresh (m : List (String × AgentResult)) (k : String) (v : AgentResult)
    (h : ∀ p ∈ m, p.1 ≠ k) : mapSet m k v = m ++ [(k, v)] := by
  induction m with
  | nil => rfl
  | cons p rest ih =>
    have hp : p.1 ≠ k := h p (List.mem_cons_self p rest)
    simp only [mapSet, List.cons_append]
    rw [if_neg (by simpa using hp)]
    rw [ih (fun q hq => h q (List.mem_cons_of_mem p hq))]

/-- The agent found for an agent task carries the task's agent id. -/
theorem findTeamAgent_id (team : List Agent) (t : AgentTask) (a : Agent)
    (h : findTeamAgent team t = some a) : a.id = t.agentId := by
  have := List.find?_some h
  simpa using this

/-- With every referenced agent present in the team and the task agent
ids pairwise distinct, the parallel join resolves (no throw), appends one
`agentResults` entry per agent task — the agent's outcome — and collects
one success flag per task. -/
theorem parallelJoin_ok (run : Agent → AgentTask → Except String TaskResult)
    (team : List Agent) :
    ∀ (ts : List AgentTask) (pe : PhaseExecution) (flags : List Bool),
      (∀ t ∈ ts, (findTeamAgent team t).isSome) →
      ((ts.map (fun t => t.agentId)).Nodup) →
      (∀ t ∈ ts, ∀ p ∈ pe.agentResults, p.1 ≠ t.agentId) →
      parallelJoin run team ts pe flags =
        ({ pe with agentResults := pe.agentResults ++
             ts.map (fun t => (t.agentId, agentOutcomeEntry run team t)) },
         none,
         flags ++ ts.map (fun t => !agentTaskFails run team t)) := by
  intro ts
  induction ts with
  | nil =>
    intro pe flags _ _ _
    simp [parallelJoin]
  | cons t ts ih =>
    intro pe flags hfound hnodup hfresh
    obtain ⟨a, ha⟩ := Option.isSome_iff_exists.1 (hfound t (List.mem_cons_self t ts))
    have haid : a.id = t.agentId := findTeamAgent_id team t a ha
    have hfreshT : ∀ p ∈ pe.agentResults, p.1 ≠ t.agentId :=
      fun p hp => hfresh t (List.mem_cons_self t ts) p hp
    have hnin : t.agentId ∉ ts.map (fun t => t.agentId) := by
      have := hnodup
      simp only [List.map_cons, List.nodup_cons] at this
      exact this.1
    have hnodup' : (ts.map (fun t => t.agentId)).Nodup := by
      have := hnodup
      simp only [List.map_cons, List.nodup_cons] at this
      exact this.2
    have hfound' : ∀ t' ∈ ts, (findTeamAgent team t').isSome :=
      fun t' ht' => hfound t' (List.mem_cons_of_mem t ht')
    have hentries : ∀ v : AgentResult,
        ∀ t' ∈ ts, ∀ p ∈ pe.agentResults ++ [(t.agentId, v)], p.1 ≠ t'.agentId := by
      intro v t' ht' p hp
      rcases List.mem_append.1 hp with hp | hp
      · exact hfresh t' (List.mem_cons_of_mem t ht') p hp
      · have hpv : p = (t.agentId, v) := by simpa using hp
        subst hpv
        show t.agentId ≠ t'.agentId
        intro hc
        exact hnin (by rw [hc]; exact List.mem_map.2 ⟨t', ht', rfl⟩)
    cases hrun : run a t with
    | ok r =>
      have hms : mapSet pe.agentResults a.id (AgentResult.ok r) =
          pe.agentResults ++ [(t.agentId, AgentResult.ok r)] := by
        rw [haid]
        exact mapSet_fresh _ _ _ hfreshT
      simp only [parallelJoin, parallelTaskStep, ha, hrun, hms]
      rw [ih _ _ hfound' hnodup' (hentries (AgentResult.ok r))]
      simp [agentOutcomeEntry, agentTaskFails, ha, hrun, List.append_assoc]
    | error e =>
      have hms : mapSet pe.agentResults a.id (AgentResult.err e) =
          pe.agentResults ++ [(t.agentId, AgentResult.err e)] := by
        rw [haid]
        exact mapSet_fresh _ _ _ hfreshT
      simp only [parallelJoin, parallelTaskStep, ha, hrun, hms]
      rw [ih _ _ hfound' hnodup' (hentries (AgentResult.err e))]
      simp [agentOutcomeEntry, agentTaskFails, ha, hrun, List.append_assoc]

/-- With every referenced agent present in the team, the parallel join
never throws, whatever the individual task outcomes. -/
theorem parallelJoin_no_throw (run : Agent → AgentTask → Except String TaskResult)
    (team : List Agent) :
    ∀ (ts : List AgentTask) (pe : PhaseExecution) (flags : List Bool),
      (∀ t ∈ ts, (findTeamAgent team t).isSome) →
      (parallelJoin run team ts pe flags).2.1 = none := by
  intro ts
  induction ts with
  | nil => intro pe flags _; rfl
  | cons t ts ih =>
    intro pe flags hfound
    obtain ⟨a, ha⟩ := Option.isSome_iff_exists.1 (hfound t (List.mem_cons_self t ts))
    cases hrun : run a t with
    | ok r =>
      simp only [parallelJoin, parallelTaskStep, ha, hrun]
      exact ih _ _ (fun t' ht' => hfound t' (List.mem_cons_of_mem t ht'))
    | error e =>
      simp only [parallelJoin, parallelTaskStep, ha, hrun]
      exact ih _ _ (fun t' ht' => hfound t' (List.mem_cons_of_mem t ht'))

/-- `executePhaseParallel` resolves without throwing whenever every
referenced agent is in the team — per-agent failures only become error
entries. -/
theorem executePhaseParallel_no_throw
    (run : Agent → AgentTask → Except String TaskResult)
    (phase : Phase) (team : List Agent) (pe : PhaseExecution)
    (hfound : ∀ t ∈ phase.agentTasks, (findTeamAgent team t).isSome) :
    (executePhaseParallel run phase team pe).2 = none := by
  have h := parallelJoin_no_throw run team phase.agentTasks pe [] hfound
  unfold executePhaseParallel
  rcases hpj : parallelJoin run team phase.agentTasks pe [] with ⟨pe', err, flags⟩
  rw [hpj] at h
  simp at h
  subst h
  simp [hpj]

/- ### C4: collaboration-plan shape -/

/-- C4 counterexample: for the team [Architect, Coder, Reviewer] and a
task that requires QA, `createPlan` produces exactly one phase, so the
claimed plan shape (at least 2 phases whose last has
`requiresValidation = true`) fails. -/
theorem C4_counterexample :
    ¬ (2 ≤ (createPlan qaPlanOptions).phases.length
        ∧ (∃ p, (createPlan qaPlanOptions).phases.getLast? = some p
             ∧ (∃ t ∈ p.agentTasks, t.agentId = reviewerAgent.id)
             ∧ p.requiresValidation = true)) := by
  intro h
  exact absurd h.1 (by decide)

/-- C4 (amended): for every planner input whose team contains a reviewer,
`createPlan` produces exactly one phase; that (last) phase includes the
reviewer among its agent tasks and has `requiresValidation = false`. -/
theorem C4_plan_single_phase (options : PlanOptions) (r : Agent)
    (hr : r ∈ options.agents) :
    (createPlan options).phases.length = 1
    ∧ ∃ p, (createPlan options).phases.getLast? = some p
        ∧ (∃ t ∈ p.agentTasks, t.agentId = r.id)
        ∧ p.requiresValidation = false := by
  refine ⟨rfl, ?_⟩
  refine ⟨{ name := "Analysis"
            executionMode := .parallel
            agentTasks := options.agents.map (fun a =>
              { agentId := a.id, usesPreviousResult := false })
            requiresValidation := false }, rfl, ?_, rfl⟩
  exact ⟨{ agentId := r.id, usesPreviousResult := false },
    List.mem_map.2 ⟨r, hr, rfl⟩, rfl⟩

/-- C4 witness: the amended statement instantiated at the QA scenario. -/
theorem C4_witness :
    reviewerAgent ∈ qaPlanOptions.agents
    ∧ ((createPlan qaPlanOptions).phases.length = 1
        ∧ ∃ p, (createPlan qaPlanOptions).phases.getLast? = some p
            ∧ (∃ t ∈ p.agentTasks, t.agentId = reviewerAgent.id)
            ∧ p.requiresValidation = false) :=
  ⟨by decide, C4_plan_single_phase qaPlanOptions reviewerAgent (by decide)⟩

/- ### C5: team optimization -/

/-- C5 counterexample: `optimizeTeamComposition` on a team containing the
same agent twice keeps the duplicate, so its output does not have unique
agent ids. -/
theorem C5_counterexample :
    ¬ (((optimizeTeamComposition dupTeam qaTask).map (fun a => a.id)).Nodup
       ∧ (optimizeTeamComposition dupTeam qaTask).Sublist dupTeam) := by
  intro h
  exact absurd h.1 (by decide)

/-- C5 (amended): `optimizeTeamComposition` returns the input team
unchanged, so the output is a subsequence of the input preserving
primary-agent-first ordering, and it has no duplicate agent ids exactly
when the input team has none. -/
theorem C5_optimize_identity (team : List Agent) (task : Task)
    (hnodup : (team.map (fun a => a.id)).Nodup) :
    optimizeTeamComposition team task = team
    ∧ (optimizeTeamComposition team task).Sublist team
    ∧ ((optimizeTeamComposition team task).map (fun a => a.id)).Nodup :=
  ⟨rfl, List.Sublist.refl team, hnodup⟩

/-- C5 witness: the amended statement instantiated at the QA team. -/
theorem C5_witness :
    ((qaTeam.map (fun a => a.id)).Nodup)
    ∧ optimizeTeamComposition qaTeam qaTask = qaTeam
    ∧ (optimizeTeamComposition qaTeam qaTask).Sublist qaTeam
    ∧ ((optimizeTeamComposition qaTeam qaTask).map (fun a => a.id)).Nodup := by
  refine ⟨by decide, ?_⟩
  exact C5_optimize_identity qaTeam qaTask (by decide)

/- ### C7: primary-agent selection -/

/-- C7: on a non-empty candidate list, `selectPrimaryAgent` returns the
first candidate whose specialization equals `task.primarySkill`
(`List.find?` is exactly first-match), and falls back to the first
candidate when no specialization matches (`Option.getD` of the
first-match result with default `c0`). -/
theorem C7_select_primary_first_match (task : Task) (c0 : Agent) (cs : List Agent) :
    selectPrimaryAgent task (c0 :: cs) =
      some (((c0 :: cs).find? (fun a => a.specialization == task.primarySkill)).getD c0) := by
  unfold selectPrimaryAgent
  cases h : (c0 :: cs).find? (fun a => a.specialization == task.primarySkill) <;>
    simp [h]

/- ### C8: planner determinism -/

/-- C8: `createPlan` is deterministic — it reads only its input options
(no clock, no randomness), so two calls on identical inputs return
structurally identical plans: same phase names, same execution modes,
same agent assignments in the same order, indeed equal plans. -/
theorem C8_createPlan_deterministic (o1 o2 : PlanOptions) (h : o1 = o2) :
    ((createPlan o1).phases.map (fun p => p.name)
        = (createPlan o2).phases.map (fun p => p.name))
    ∧ ((createPlan o1).phases.map (fun p => p.executionMode)
        = (createPlan o2).phases.map (fun p => p.executionMode))
    ∧ ((createPlan o1).phases.map (fun p => p.agentTasks)
        = (createPlan o2).phases.map (fun p => p.agentTasks))
    ∧ createPlan o1 = createPlan o2 := by
  subst h
  exact ⟨rfl, rfl, rfl, rfl⟩

/-- C8 witness: determinism instantiated at the QA planner input. -/
theorem C8_witness :
    qaPlanOptions = qaPlanOptions
    ∧ createPlan qaPlanOptions = createPlan qaPlanOptions :=
  ⟨rfl, (C8_createPlan_deterministic qaPlanOptions qaPlanOptions rfl).2.2.2⟩

/- ### C9: agent registration -/

/-- C9: registering an agent whose id is already present fails with the
duplicate-agent error and leaves the registry unchanged; registering an
agent with a fresh id appends it and reports no error. -/
theorem C9_register_agent_contract (reg : List Agent) (agent : Agent) :
    ((∃ a ∈ reg, a.id = agent.id) →
       registerAgent reg agent =
         (reg, some ("Agent " ++ agent.id ++ " already registered")))
    ∧ ((∀ a ∈ reg, a.id ≠ agent.id) →
       registerAgent reg agent = (reg ++ [agent], none)) := by
  constructor
  · rintro ⟨a, ha, hid⟩
    unfold registerAgent
    rw [if_pos]
    exact List.any_eq_true.2 ⟨a, ha, by simp [hid]⟩
  · intro h
    unfold registerAgent
    rw [if_neg]
    intro hc
    obtain ⟨a, ha, hid⟩ := List.any_eq_true.1 hc
    exact h a ha (by simpa using hid)

/-- C9 witness: a duplicate registration (Coder already present) is
rejected without touching the registry; a fresh registration appends. -/
theorem C9_witness :
    registerAgent [coderAgent] coderAgent =
      ([coderAgent], some ("Agent " ++ coderAgent.id ++ " already registered"))
    ∧ registerAgent [] coderAgent = ([coderAgent], none) :=
  ⟨(C9_register_agent_contract [coderAgent] coderAgent).1
      ⟨coderAgent, by decide, rfl⟩,
   (C9_register_agent_contract [] coderAgent).2 (by decide)⟩

/- ### C1: parallel-phase failure isolation -/

/-- C1: for a parallel phase whose agent tasks reference pairwise
distinct agents all present in the team, `executePhaseParallel` resolves
without throwing, its `agentResults` map is exactly one entry per agent
task (so N entries for N agents), and the error entries are exactly the
entries of the failing agents (so M error entries when M executions
fail) — a per-agent failure is never propagated as a whole-phase
exception. -/
theorem C1_parallel_phase_failure_isolation
    (run : Agent → AgentTask → Except String TaskResult)
    (phase : Phase) (team : List Agent) (pe : PhaseExecution)
    (hfound : ∀ t ∈ phase.agentTasks, (findTeamAgent team t).isSome)
    (hnodup : ((phase.agentTasks.map (fun t => t.agentId)).Nodup))
    (hempty : pe.agentResults = []) :
    (executePhaseParallel run phase team pe).2 = none
    ∧ (executePhaseParallel run phase team pe).1.agentResults =
        phase.agentTasks.map (fun t => (t.agentId, agentOutcomeEntry run team t))
    ∧ (executePhaseParallel run phase team pe).1.agentResults.length =
        phase.agentTasks.length
    ∧ (executePhaseParallel run phase team pe).1.agentResults.countP isErrEntry =
        phase.agentTasks.countP (fun t => agentTaskFails run team t) := by
  have hfresh : ∀ t ∈ phase.agentTasks, ∀ p ∈ pe.agentResults, p.1 ≠ t.agentId := by
    intro t _ p hp
    rw [hempty] at hp
    exact absurd hp (List.not_mem_nil p)
  have hjoin := parallelJoin_ok run team phase.agentTasks pe [] hfound hnodup hfresh
  have hres : executePhaseParallel run phase team pe =
      ({ pe with agentResults := pe.agentResults ++
           phase.agentTasks.map (fun t => (t.agentId, agentOutcomeEntry run team t)) },
       none) := by
    unfold executePhaseParallel
    rw [hjoin]
    simp [handleAgentFailures]
  rw [hres]
  refine ⟨rfl, by simp [hempty], by simp [hempty], ?_⟩
  simp only [hempty, List.nil_append]
  rw [List.countP_map]
  apply List.countP_congr
  intro t ht
  obtain ⟨a, ha⟩ := Option.isSome_iff_exists.1 (hfound t ht)
  cases hrun : run a t with
  | ok r => simp [Function.comp, isErrEntry, agentOutcomeEntry, agentTaskFails, ha, hrun]
  | error e => simp [Function.comp, isErrEntry, agentOutcomeEntry, agentTaskFails, ha, hrun]

/-- A concrete agent unit of work for witnesses: the coder agent's task
rejects with message `boom`, every other agent's task succeeds. -/
def demoRun : Agent → AgentTask → Except String TaskResult :=
  fun a _ => if a.id == "coding_1" then .error "boom" else .ok { value := 1 }

/-- A concrete parallel phase over the QA team (one task per agent). -/
def demoParallelPhase : Phase :=
  { name := "Analysis"
    executionMode := .parallel
    agentTasks :=
      [ { agentId := "architecture_1", usesPreviousResult := false }
      , { agentId := "coding_1", usesPreviousResult := false }
      , { agentId := "review_1", usesPreviousResult := false } ]
    requiresValidation := false }

/-- The fresh per-phase record `executePhase` builds before dispatching. -/
def emptyPhaseExecution : PhaseExecution :=
  { name := "Analysis", agentResults := [], conflicts := [], collaborations := [] }

/-- C1 witness: three agents run in parallel, the coder fails; the phase
resolves with three entries of which one is an error entry. -/
theorem C1_witness :
    (∀ t ∈ demoParallelPhase.agentTasks, (findTeamAgent qaTeam t).isSome)
    ∧ ((demoParallelPhase.agentTasks.map (fun t => t.agentId)).Nodup)
    ∧ (executePhaseParallel demoRun demoParallelPhase qaTeam emptyPhaseExecution).2 = none
    ∧ (executePhaseParallel demoRun demoParallelPhase qaTeam emptyPhaseExecution).1.agentResults.length =
        demoParallelPhase.agentTasks.length
    ∧ (executePhaseParallel demoRun demoParallelPhase qaTeam emptyPhaseExecution).1.agentResults.countP isErrEntry =
        demoParallelPhase.agentTasks.countP (fun t => agentTaskFails demoRun qaTeam t) :=
  ⟨by decide, by decide,
   (C1_parallel_phase_failure_isolation demoRun demoParallelPhase qaTeam
      emptyPhaseExecution (by decide) (by decide) rfl).1,
   (C1_parallel_phase_failure_isolation demoRun demoParallelPhase qaTeam
      emptyPhaseExecution (by decide) (by decide) rfl).2.2.1,
   (C1_parallel_phase_failure_isolation demoRun demoParallelPhase qaTeam
      emptyPhaseExecution (by decide) (by decide) rfl).2.2.2⟩

/- ### C10: compiled orchestration result -/

/-- C10: `compileOrchestrationResult` always reports `success = true`
together with the executed phase count and the elapsed duration, and a
parallel phase whose referenced agents are all in the team never throws —
so per-agent failures in parallel mode can never make the compiled
orchestration result report failure. -/
theorem C10_orchestration_result_success (now : Nat) (e : OrchestrationExecution)
    (run : Agent → AgentTask → Except String TaskResult)
    (phase : Phase) (team : List Agent) (pe : PhaseExecution)
    (hfound : ∀ t ∈ phase.agentTasks, (findTeamAgent team t).isSome) :
    (compileOrchestrationResult now e).success = true
    ∧ (compileOrchestrationResult now e).phases = e.phases.length
    ∧ (compileOrchestrationResult now e).duration = now - e.startTime
    ∧ (executePhaseParallel run phase team pe).2 = none :=
  ⟨rfl, rfl, rfl, executePhaseParallel_no_throw run phase team pe hfound⟩

/-- C10 witness: a concrete execution record (with a phase record in
which every agent failed) compiles to a success result, and the demo
parallel phase with a failing coder does not throw. -/
theorem C10_witness :
    (∀ t ∈ demoParallelPhase.agentTasks, (findTeamAgent qaTeam t).isSome)
    ∧ (compileOrchestrationResult 100
         { startTime := 40
           phases := [{ name := "Analysis"
                        agentResults := [("coding_1", AgentResult.err "boom")]
                        conflicts := []
                        collaborations := [] }] }).success = true
    ∧ (executePhaseParallel demoRun demoParallelPhase qaTeam emptyPhaseExecution).2 = none :=
  ⟨by decide,
   (C10_orchestration_result_success 100
      { startTime := 40
        phases := [{ name := "Analysis"
                     agentResults := [("coding_1", AgentResult.err "boom")]
                     conflicts := []
                     collaborations := [] }] }
      demoRun demoParallelPhase qaTeam emptyPhaseExecution (by decide)).1,
   (C10_orchestration_result_success 100
      { startTime := 40
        phases := [{ name := "Analysis"
                     agentResults := [("coding_1", AgentResult.err "boom")]
                     conflicts := []
                     collaborations := [] }] }
      demoRun demoParallelPhase qaTeam emptyPhaseExecution (by decide)).2.2.2⟩

/- ### C2: sequential-phase abort -/

/-- Running the sequential loop over a prefix of tasks that all succeed
(each agent found, no unit of work raising) appends exactly one entry per
task and continues with the remaining tasks; the intermediate
collaborations do not influence the recorded results. -/
theorem sequentialLoop_ok_prefix (run : Agent → AgentTask → Except String TaskResult)
    (team : List Agent) (allTasks : List AgentTask) :
    ∀ (pre ts : List AgentTask) (i : Nat) (pe : PhaseExecution),
      (∀ t ∈ pre, (findTeamAgent team t).isSome) →
      (∀ t ∈ pre, agentTaskFails run team t = false) →
      ((pre.map (fun t => t.agentId)).Nodup) →
      (∀ t ∈ pre, ∀ p ∈ pe.agentResults, p.1 ≠ t.agentId) →
      ∃ pe', sequentialLoop run team allTasks (pre ++ ts) i pe =
               sequentialLoop run team allTasks ts (i + pre.length) pe'
           ∧ pe'.agentResults = pe.agentResults ++
               pre.map (fun t => (t.agentId, agentOutcomeEntry run team t)) := by
  intro pre
  induction pre with
  | nil =>
    intro ts i pe _ _ _ _
    exact ⟨pe, by simp, by simp⟩
  | cons t pre ih =>
    intro ts i pe hfound hok hnodup hfresh
    obtain ⟨a, ha⟩ := Option.isSome_iff_exists.1 (hfound t (List.mem_cons_self t pre))
    have haid : a.id = t.agentId := findTeamAgent_id team t a ha
    have hsucc : ∃ r, run a t = .ok r := by
      cases hrun : run a t with
      | ok r => exact ⟨r, rfl⟩
      | error e =>
        have hf := hok t (List.mem_cons_self t pre)
        simp [agentTaskFails, ha, hrun] at hf
    obtain ⟨r, hrun⟩ := hsucc
    have hfreshT : ∀ p ∈ pe.agentResults, p.1 ≠ t.agentId :=
      fun p hp => hfresh t (List.mem_cons_self t pre) p hp
    have hms : mapSet pe.agentResults a.id (AgentResult.ok r) =
        pe.agentResults ++ [(t.agentId, AgentResult.ok r)] := by
      rw [haid]
      exact mapSet_fresh _ _ _ hfreshT
    have hnin : t.agentId ∉ pre.map (fun t => t.agentId) := by
      have := hnodup
      simp only [List.map_cons, List.nodup_cons] at this
      exact this.1
    have hnodup' : (pre.map (fun t => t.agentId)).Nodup := by
      have := hnodup
      simp only [List.map_cons, List.nodup_cons] at this
      exact this.2
    have hfound' : ∀ t' ∈ pre, (findTeamAgent team t').isSome :=
      fun t' ht' => hfound t' (List.mem_cons_of_mem t ht')
    have hok' : ∀ t' ∈ pre, agentTaskFails run team t' = false :=
      fun t' ht' => hok t' (List.mem_cons_of_mem t ht')
    have hfresh' : ∀ t' ∈ pre,
        ∀ p ∈ pe.agentResults ++ [(t.agentId, AgentResult.ok r)], p.1 ≠ t'.agentId := by
      intro t' ht' p hp
      rcases List.mem_append.1 hp with hp | hp
      · exact hfresh t' (List.mem_cons_of_mem t ht') p hp
      · have hpv : p = (t.agentId, AgentResult.ok r) := by simpa using hp
        subst hpv
        show t.agentId ≠ t'.agentId
        intro hc
        exact hnin (by rw [hc]; exact List.mem_map.2 ⟨t', ht', rfl⟩)
    have hentry : agentOutcomeEntry run team t = AgentResult.ok r := by
      simp [agentOutcomeEntry, ha, hrun]
    simp only [List.cons_append, sequentialLoop, ha, hrun, hms]
    by_cases hup : t.usesPreviousResult = true
    · simp only [hup, if_true]
      obtain ⟨pe', hloop, hres⟩ := ih ts (i + 1)
        { pe with
          agentResults := pe.agentResults ++ [(t.agentId, AgentResult.ok r)]
          collaborations := pe.collaborations ++
            [{ ctype := "sequential_handoff"
               fromId := ((allTasks.get? (i - 1)).map (fun p => p.agentId))
               toId := a.id }] }
        hfound' hok' hnodup' (by simpa using hfresh')
      refine ⟨pe', ?_, ?_⟩
      · have hlen : i + 1 + pre.length = i + (t :: pre).length := by
          simp only [List.length_cons]
          omega
        rw [← hlen]
        exact hloop
      · rw [hres]
        simp [hentry, List.append_assoc]
    · simp only [Bool.not_eq_true] at hup
      simp only [hup, Bool.false_eq_true, if_false]
      obtain ⟨pe', hloop, hres⟩ := ih ts (i + 1)
        { pe with agentResults := pe.agentResults ++ [(t.agentId, AgentResult.ok r)] }
        hfound' hok' hnodup' (by simpa using hfresh')
      refine ⟨pe', ?_, ?_⟩
      · have hlen : i + 1 + pre.length = i + (t :: pre).length := by
          simp only [List.length_cons]
          omega
        rw [← hlen]
        exact hloop
      · rw [hres]
        simp [hentry, List.append_assoc]

/-- C2: for a sequential phase whose tasks are `pre ++ tk :: post` with
pairwise distinct agent ids, every agent present in the team, every task
of `pre` succeeding and task `tk` failing with `cause`,
`executePhaseSequential` halts at `tk`: it throws
`Sequential execution failed at agent <name>: <cause>`, the recorded
`agentResults` are exactly the successful entries for `pre` followed by
the error entry for `tk` (so k entries when `tk` is the k-th task), and
no agent of `post` has any entry — the tasks after the failure are never
executed. -/
theorem C2_sequential_phase_abort
    (run : Agent → AgentTask → Except String TaskResult)
    (phase : Phase) (team : List Agent) (pe : PhaseExecution)
    (pre post : List AgentTask) (tk : AgentTask) (ak : Agent) (cause : String)
    (hphase : phase.agentTasks = pre ++ tk :: post)
    (hfound : ∀ t ∈ phase.agentTasks, (findTeamAgent team t).isSome)
    (hok : ∀ t ∈ pre, agentTaskFails run team t = false)
    (hak : findTeamAgent team tk = some ak)
    (hcause : run ak tk = .error cause)
    (hnodup : ((phase.agentTasks.map (fun t => t.agentId)).Nodup))
    (hempty : pe.agentResults = []) :
    (executePhaseSequential run phase team pe).2 =
      some ("Sequential execution failed at agent " ++ ak.name ++ ": " ++ cause)
    ∧ (executePhaseSequential run phase team pe).1.agentResults =
        pre.map (fun t => (t.agentId, agentOutcomeEntry run team t))
          ++ [(tk.agentId, AgentResult.err cause)]
    ∧ (executePhaseSequential run phase team pe).1.agentResults.length = pre.length + 1
    ∧ (∀ t ∈ post,
        t.agentId ∉ resultKeys (executePhaseSequential run phase team pe).1.agentResults) := by
  have hkid : ak.id = tk.agentId := findTeamAgent_id team tk ak hak
  have hnodup' : ((pre ++ tk :: post).map (fun t => t.agentId)).Nodup := by
    rw [← hphase]; exact hnodup
  rw [List.map_append, List.nodup_append] at hnodup'
  obtain ⟨hnodupPre, hnodupRest, hdisj⟩ := hnodup'
  have hkNotPre : tk.agentId ∉ pre.map (fun t => t.agentId) := by
    intro hc
    exact hdisj hc (by simp)
  have hfoundPre : ∀ t ∈ pre, (findTeamAgent team t).isSome := by
    intro t ht
    exact hfound t (by rw [hphase]; exact List.mem_append_left _ ht)
  obtain ⟨pe', hloop, hres⟩ := sequentialLoop_ok_prefix run team (phase.agentTasks)
    pre (tk :: post) 0 pe hfoundPre hok hnodupPre
    (by intro t _ p hp; rw [hempty] at hp; exact absurd hp (List.not_mem_nil p))
  have hfreshK : ∀ p ∈ pe'.agentResults, p.1 ≠ tk.agentId := by
    intro p hp hc
    rw [hres, hempty, List.nil_append] at hp
    obtain ⟨t, ht, hpt⟩ := List.mem_map.1 hp
    apply hkNotPre
    rw [← hc, ← hpt]
    exact List.mem_map.2 ⟨t, ht, rfl⟩
  have hms : mapSet pe'.agentResults ak.id (AgentResult.err cause) =
      pe'.agentResults ++ [(tk.agentId, AgentResult.err cause)] := by
    rw [hkid]
    exact mapSet_fresh _ _ _ hfreshK
  have hstep : sequentialLoop run team phase.agentTasks (tk :: post) (0 + pre.length) pe' =
      ({ pe' with agentResults := pe'.agentResults ++ [(tk.agentId, AgentResult.err cause)] },
       some ("Sequential execution failed at agent " ++ ak.name ++ ": " ++ cause)) := by
    simp only [sequentialLoop, hak, hcause, hms]
  have hfull : executePhaseSequential run phase team pe =
      ({ pe' with agentResults := pe'.agentResults ++ [(tk.agentId, AgentResult.err cause)] },
       some ("Sequential execution failed at agent " ++ ak.name ++ ": " ++ cause)) := by
    unfold executePhaseSequential
    calc sequentialLoop run team phase.agentTasks phase.agentTasks 0 pe
        = sequentialLoop run team phase.agentTasks (pre ++ tk :: post) 0 pe := by rw [hphase]
      _ = sequentialLoop run team phase.agentTasks (tk :: post) (0 + pre.length) pe' := hloop
      _ = _ := hstep
  rw [hfull]
  have hresults : pe'.agentResults ++ [(tk.agentId, AgentResult.err cause)] =
      pre.map (fun t => (t.agentId, agentOutcomeEntry run team t))
        ++ [(tk.agentId, AgentResult.err cause)] := by
    rw [hres, hempty, List.nil_append]
  refine ⟨rfl, by simpa using hresults, ?_, ?_⟩
  · show (pe'.agentResults ++ [(tk.agentId, AgentResult.err cause)]).length = pre.length + 1
    rw [hresults]
    simp
  · intro t ht hc
    simp only [resultKeys] at hc
    rw [hresults] at hc
    simp only [List.map_append, List.map_map, List.mem_append] at hc
    rcases hc with hc | hc
    · obtain ⟨t', ht', hpt⟩ := List.mem_map.1 hc
      apply hdisj (a := t.agentId)
      · rw [← hpt]
        simpa using List.mem_map.2 ⟨t', ht', rfl⟩
      · simp only [List.map_cons, List.mem_cons]
        right
        exact List.mem_map.2 ⟨t, ht, rfl⟩
    · have hceq : t.agentId = tk.agentId := by simpa using hc
      have : (tk.agentId :: post.map (fun t => t.agentId)).Nodup := by
        simpa using hnodupRest
      rw [List.nodup_cons] at this
      exact this.1 (by rw [← hceq]; exact List.mem_map.2 ⟨t, ht, rfl⟩)

/-- A concrete sequential phase over the QA team: architect, then coder,
then reviewer, the coder using the architect's result. -/
def demoSequentialPhase : Phase :=
  { name := "Pipeline"
    executionMode := .sequential
    agentTasks :=
      [ { agentId := "architecture_1", usesPreviousResult := false }
      , { agentId := "coding_1", usesPreviousResult := true }
      , { agentId := "review_1", usesPreviousResult := true } ]
    requiresValidation := false }

/-- C2 witness: in the 3-agent pipeline the coder (position 2) fails;
the phase throws the sequential-failure error naming the coder, records
exactly 2 entries, and the reviewer has no entry. -/
theorem C2_witness :
    (findTeamAgent qaTeam { agentId := "coding_1", usesPreviousResult := true } = some coderAgent)
    ∧ (executePhaseSequential demoRun demoSequentialPhase qaTeam emptyPhaseExecution).2 =
        some ("Sequential execution failed at agent " ++ coderAgent.name ++ ": " ++ "boom")
    ∧ (executePhaseSequential demoRun demoSequentialPhase qaTeam emptyPhaseExecution).1.agentResults.length =
        [({ agentId := "architecture_1", usesPreviousResult := false } : AgentTask)].length + 1
    ∧ (∀ t ∈ [({ agentId := "review_1", usesPreviousResult := true } : AgentTask)],
        t.agentId ∉ resultKeys
          (executePhaseSequential demoRun demoSequentialPhase qaTeam emptyPhaseExecution).1.agentResults) :=
  ⟨by decide,
   (C2_sequential_phase_abort demoRun demoSequentialPhase qaTeam emptyPhaseExecution
      [{ agentId := "architecture_1", usesPreviousResult := false }]
      [{ agentId := "review_1", usesPreviousResult := true }]
      { agentId := "coding_1", usesPreviousResult := true }
      coderAgent "boom" rfl (by decide) (by decide) (by decide) rfl (by decide) rfl).1,
   (C2_sequential_phase_abort demoRun demoSequentialPhase qaTeam emptyPhaseExecution
      [{ agentId := "architecture_1", usesPreviousResult := false }]
      [{ agentId := "review_1", usesPreviousResult := true }]
      { agentId := "coding_1", usesPreviousResult := true }
      coderAgent "boom" rfl (by decide) (by decide) (by decide) rfl (by decide) rfl).2.2.1,
   (C2_sequential_phase_abort demoRun demoSequentialPhase qaTeam emptyPhaseExecution
      [{ agentId := "architecture_1", usesPreviousResult := false }]
      [{ agentId := "review_1", usesPreviousResult := true }]
      { agentId := "coding_1", usesPreviousResult := true }
      coderAgent "boom" rfl (by decide) (by decide) (by decide) rfl (by decide) rfl).2.2.2⟩

/- ### Workflow-engine lemmas -/

/-- When every check in the list passes, the pre-flight gate throws
nothing. -/
theorem runPreChecks_all_pass (checks : List (Workflow → CheckResult)) (w : Workflow)
    (h : ∀ c ∈ checks, (c w).passed = true) : runPreChecks checks w = none := by
  induction checks with
  | nil => rfl
  | cons c cs ih =>
    simp only [runPreChecks]
    rw [if_pos (h c (List.mem_cons_self c cs))]
    exact ih (fun c' hc' => h c' (List.mem_cons_of_mem c hc'))

/-- Running the stage loop over a prefix of stages whose pre-flight
checks all pass: the loop reaches the remaining stages with the index
advanced by the prefix length and the trace extended by the consecutive
indices; the intermediate workflow has one insight per prefix stage, its
status, error, stages and intent unchanged, and its `currentStage` at the
last prefix index. -/
theorem workflowLoop_pass_prefix (preChecks : Stage → List (Workflow → CheckResult))
    (postChecks : Stage → List (StageResult → Workflow → CheckResult)) :
    ∀ (ss ts : List Stage) (i : Nat) (w : Workflow) (trace : List Nat),
      (∀ s ∈ ss, ∀ c ∈ preChecks s, ∀ w', (c w').passed = true) →
      ∃ w', workflowLoop preChecks postChecks (ss ++ ts) i w trace =
              workflowLoop preChecks postChecks ts (i + ss.length) w'
                (trace ++ List.range' i ss.length)
          ∧ w'.insights = w.insights ++ ss.map (fun s => { stage := s.name, success := true })
          ∧ w'.status = w.status
          ∧ w'.error = w.error
          ∧ w'.stages = w.stages
          ∧ w'.intent = w.intent
          ∧ (ss = [] → w'.currentStage = w.currentStage)
          ∧ (ss ≠ [] → w'.currentStage = i + ss.length - 1) := by
  intro ss
  induction ss with
  | nil =>
    intro ts i w trace _
    refine ⟨w, ?_, by simp, rfl, rfl, rfl, rfl, fun _ => rfl, fun h => absurd rfl h⟩
    simp [List.range']
  | cons s ss ih =>
    intro ts i w trace hpass
    have hpre : executePreFlightCheck preChecks s { w with currentStage := i } = none :=
      runPreChecks_all_pass _ _
        (fun c hc => hpass s (List.mem_cons_self s ss) c hc _)
    obtain ⟨w', hloop, hins, hstat, herr, hstages, hintent, hemp, hne⟩ :=
      ih ts (i + 1)
        { w with
          currentStage := i
          insights := w.insights ++ [{ stage := s.name, success := true }] }
        (trace ++ [i])
        (fun s' hs' => hpass s' (List.mem_cons_of_mem s hs'))
    refine ⟨w', ?_, ?_, ?_, ?_, ?_, ?_, ?_, ?_⟩
    · simp only [List.cons_append, workflowLoop, hpre, executeStage]
      have hlen : i + 1 + ss.length = i + (s :: ss).length := by
        simp only [List.length_cons]
        omega
      rw [← hlen]
      have htr : trace ++ List.range' i (s :: ss).length =
          (trace ++ [i]) ++ List.range' (i + 1) ss.length := by
        simp only [List.length_cons, List.range'_succ, List.append_assoc,
          List.singleton_append]
      rw [htr]
      exact hloop
    · rw [hins]
      simp [List.append_assoc]
    · rw [hstat]
    · rw [herr]
    · rw [hstages]
    · rw [hintent]
    · intro h
      exact absurd h (List.cons_ne_nil s ss)
    · intro _
      by_cases hss : ss = []
      · subst hss
        rw [hemp rfl]
        simp
      · rw [hne hss]
        simp only [List.length_cons]
        omega

/- ### C3: workflow stage counter across a successful run -/

/-- C3 (amended): across a successful run (every pre-flight check passes
and `currentStage` starts at 0 as `startWorkflow` sets it), the trace of
`currentStage` values is monotonically non-decreasing, the final status is
`completed`, and at completion `currentStage` equals `stages.length - 1`
(the last loop index; it is not advanced past the final stage), which is
`0` — its initial value — for an empty stage list. -/
theorem C3_workflow_stage_monotone (preChecks : Stage → List (Workflow → CheckResult))
    (postChecks : Stage → List (StageResult → Workflow → CheckResult))
    (w : Workflow)
    (hcur : w.currentStage = 0)
    (hpass : ∀ s ∈ w.stages, ∀ c ∈ preChecks s, ∀ w', (c w').passed = true) :
    List.Pairwise (· ≤ ·) (executeWorkflow preChecks postChecks w).2
    ∧ (executeWorkflow preChecks postChecks w).1.status = WStatus.completed
    ∧ (executeWorkflow preChecks postChecks w).1.currentStage = w.stages.length - 1 := by
  obtain ⟨w', hloop, hins, hstat, herr, hstages, hintent, hemp, hne⟩ :=
    workflowLoop_pass_prefix preChecks postChecks w.stages [] 0 w [w.currentStage] hpass
  rw [List.append_nil] at hloop
  have hrun : executeWorkflow preChecks postChecks w =
      ({ w' with status := .completed },
       [w.currentStage] ++ List.range' 0 w.stages.length) := by
    unfold executeWorkflow
    rw [hloop]
    rfl
  rw [hrun]
  refine ⟨?_, rfl, ?_⟩
  · rw [hcur]
    show List.Pairwise (· ≤ ·) (0 :: List.range' 0 w.stages.length)
    rw [← List.range_eq_range']
    exact List.Pairwise.cons (fun x _ => Nat.zero_le x)
      ((List.pairwise_lt_range _).imp (fun h => Nat.le_of_lt h))
  · show w'.currentStage = w.stages.length - 1
    by_cases hss : w.stages = []
    · rw [hemp hss, hcur, hss]
      rfl
    · rw [hne hss]
      omega

/-- Trivial check environments: no pre-flight and no post-flight checks
for any stage (what the source's placeholder checkers return). -/
def trivialPreChecks : Stage → List (Workflow → CheckResult) :=
  fun _ => []

/-- No post-flight checks for any stage. -/
def trivialPostChecks : Stage → List (StageResult → Workflow → CheckResult) :=
  fun _ => []

/-- A concrete one-stage workflow as `startWorkflow` creates it. -/
def sampleStage : Stage :=
  { name := "Analysis", stageType := "analyze" }

/-- A one-stage workflow right after plan generation. -/
def sampleWorkflow : Workflow :=
  { intent := "demo"
    stages := [sampleStage]
    currentStage := 0
    status := .active
    insights := []
    error := none }

/-- C3 counterexample: a successful one-stage run completes with
`currentStage = 0`, not `stages.length = 1` — the loop sets
`currentStage = i` and never advances it past the last index. -/
theorem C3_counterexample :
    (executeWorkflow trivialPreChecks trivialPostChecks sampleWorkflow).1.status =
      WStatus.completed
    ∧ (executeWorkflow trivialPreChecks trivialPostChecks sampleWorkflow).1.currentStage ≠
        sampleWorkflow.stages.length := by
  refine ⟨rfl, ?_⟩
  decide

/-- C3 witness: the amended statement instantiated at the one-stage
workflow with no checks. -/
theorem C3_witness :
    sampleWorkflow.currentStage = 0
    ∧ List.Pairwise (· ≤ ·) (executeWorkflow trivialPreChecks trivialPostChecks sampleWorkflow).2
    ∧ (executeWorkflow trivialPreChecks trivialPostChecks sampleWorkflow).1.status =
        WStatus.completed
    ∧ (executeWorkflow trivialPreChecks trivialPostChecks sampleWorkflow).1.currentStage =
        sampleWorkflow.stages.length - 1 := by
  refine ⟨rfl, ?_⟩
  exact C3_workflow_stage_monotone trivialPreChecks trivialPostChecks sampleWorkflow rfl
    (fun s _ c hc => absurd hc (List.not_mem_nil c))

/- ### C6: pre-flight failures are fatal, post-flight failures are not -/

/-- C6: with an arbitrary post-flight environment `postChecks` (which may
contain failing checks): if the pre-flight checks pass on every stage
before `sk` and `sk`'s pre-flight gate throws `msg`, the workflow ends
`failed` with that error surfaced and exactly one insight per completed
earlier stage — the failing stage and everything after it never execute;
whereas under a pre-flight environment whose checks all pass, the same
workflow runs every stage to completion with status `completed`,
whatever the post-flight checks report. -/
theorem C6_preflight_fatal_postflight_lenient
    (preChecks preChecks2 : Stage → List (Workflow → CheckResult))
    (postChecks : Stage → List (StageResult → Workflow → CheckResult))
    (w : Workflow) (preStages : List Stage) (sk : Stage) (postStages : List Stage)
    (msg : String)
    (hw : w.stages = preStages ++ sk :: postStages)
    (hins : w.insights = [])
    (hok : ∀ s ∈ preStages, ∀ c ∈ preChecks s, ∀ w', (c w').passed = true)
    (hfail : ∀ w', executePreFlightCheck preChecks sk w' = some msg)
    (hall : ∀ s ∈ w.stages, ∀ c ∈ preChecks2 s, ∀ w', (c w').passed = true) :
    (executeWorkflow preChecks postChecks w).1.status = WStatus.failed
    ∧ (executeWorkflow preChecks postChecks w).1.error = some msg
    ∧ (executeWorkflow preChecks postChecks w).1.insights.length = preStages.length
    ∧ (executeWorkflow preChecks2 postChecks w).1.status = WStatus.completed
    ∧ (executeWorkflow preChecks2 postChecks w).1.insights.length = w.stages.length := by
  obtain ⟨w', hloop, hins', _, _, _, _, _, _⟩ :=
    workflowLoop_pass_prefix preChecks postChecks preStages (sk :: postStages) 0 w
      [w.currentStage] hok
  have hstep : workflowLoop preChecks postChecks (sk :: postStages)
      (0 + preStages.length) w'
      ([w.currentStage] ++ List.range' 0 preStages.length) =
      ({ w' with currentStage := 0 + preStages.length, status := .failed, error := some msg },
       ([w.currentStage] ++ List.range' 0 preStages.length) ++ [0 + preStages.length]) := by
    simp only [workflowLoop, hfail]
  have hrun1 : (executeWorkflow preChecks postChecks w).1 =
      { w' with currentStage := 0 + preStages.length, status := .failed, error := some msg } := by
    unfold executeWorkflow
    rw [hw, hloop, hstep]
  obtain ⟨w2, hloop2, hins2, _, _, _, _, _, _⟩ :=
    workflowLoop_pass_prefix preChecks2 postChecks w.stages [] 0 w [w.currentStage] hall
  rw [List.append_nil] at hloop2
  have hrun2 : (executeWorkflow preChecks2 postChecks w).1 =
      { w2 with status := .completed } := by
    unfold executeWorkflow
    rw [hloop2]
    rfl
  refine ⟨by rw [hrun1], by rw [hrun1], ?_, by rw [hrun2], ?_⟩
  · rw [hrun1]
    show w'.insights.length = preStages.length
    rw [hins', hins]
    simp
  · rw [hrun2]
    show w2.insights.length = w.stages.length
    rw [hins2, hins]
    simp

/-- A pre-flight check that always fails (e.g. a missing prerequisite). -/
def failingPreCheck : Workflow → CheckResult :=
  fun _ => { passed := false, message := "no lockfile" }

/-- A post-flight check that always fails (e.g. coverage below target). -/
def failingPostCheck : StageResult → Workflow → CheckResult :=
  fun _ _ => { passed := false, message := "coverage low" }

/-- A second concrete stage. -/
def planningStage : Stage :=
  { name := "Planning", stageType := "plan" }

/-- A pre-flight environment that fails exactly on the Planning stage. -/
def demoPreChecks : Stage → List (Workflow → CheckResult) :=
  fun s => if s.name == "Planning" then [failingPreCheck] else []

/-- A post-flight environment whose (failing) check runs on every stage. -/
def demoPostChecks : Stage → List (StageResult → Workflow → CheckResult) :=
  fun _ => [failingPostCheck]

/-- A two-stage workflow: Analysis then Planning. -/
def twoStageWorkflow : Workflow :=
  { intent := "demo"
    stages := [sampleStage, planningStage]
    currentStage := 0
    status := .active
    insights := []
    error := none }

/-- C6 witness: with a failing Planning pre-flight check the two-stage
workflow fails after one insight with the error surfaced; with no
pre-flight checks — but a post-flight check failing on every stage — it
completes with an insight for both stages. -/
theorem C6_witness :
    (executeWorkflow demoPreChecks demoPostChecks twoStageWorkflow).1.status = WStatus.failed
    ∧ (executeWorkflow demoPreChecks demoPostChecks twoStageWorkflow).1.error =
        some "Pre-flight check failed: no lockfile"
    ∧ (executeWorkflow demoPreChecks demoPostChecks twoStageWorkflow).1.insights.length = 1
    ∧ (executeWorkflow trivialPreChecks demoPostChecks twoStageWorkflow).1.status =
        WStatus.completed
    ∧ (executeWorkflow trivialPreChecks demoPostChecks twoStageWorkflow).1.insights.length = 2 := by
  have h := C6_preflight_fatal_postflight_lenient demoPreChecks trivialPreChecks
    demoPostChecks twoStageWorkflow [sampleStage] planningStage []
    "Pre-flight check failed: no lockfile" rfl rfl
    (by
      intro s hs c hc w'
      rw [List.mem_singleton] at hs
      subst hs
      have hnil : demoPreChecks sampleStage = [] := rfl
      rw [hnil] at hc
      exact absurd hc (List.not_mem_nil c))
    (fun w' => rfl)
    (fun s _ c hc w' => absurd hc (List.not_mem_nil c))
  exact h

end UCW
